import Mathlib

/-!
Shallow embedding of the service-worker media cache in `public/sw.js`.

Strings are modelled as `List Char` (`Str`); the Cache-API store is an
association list from request URL to stored response.  Wall-clock time
(`Date.now()`) is an explicit `Nat` parameter measured in milliseconds.
Asynchronous steps (the background manifest refresh and the size-governor
pass) are modelled as separate functions applied to the cache state after
the synchronous handler returns, matching their fire-and-forget scheduling.
-/

namespace SwCache

abbrev Str := List Char

/-- The two response headers the service worker reads or writes, kept as
parsed values (`sw-cache-time` and `content-length`); all other headers are
carried along unchanged and never inspected, so they are not modelled. -/
structure Headers where
  swCacheTime : Option Nat
  contentLength : Option Nat
  deriving Repr, DecidableEq

/-- A stored/fetched response: status line, body, whether `response.blob()`
succeeds on the running platform (it can throw on iOS Safari), and headers. -/
structure Response where
  status : Nat
  statusText : Str
  body : Str
  blobOk : Bool
  headers : Headers
  deriving Repr, DecidableEq

/-- `response.ok`: status in the inclusive range 200..299. -/
def Response.ok (r : Response) : Bool := decide (200 ≤ r.status ∧ r.status < 300)

/-- `const CACHE_NAME = 'hls-cache-v1'`. -/
def CACHE_NAME : Str := "hls-cache-v1".data

/-- `const MAX_CACHE_SIZE = 50 * 1024 * 1024`. -/
def MAX_CACHE_SIZE : Nat := 50 * 1024 * 1024

/-- `const CACHE_EXPIRY = 2 * 60 * 60 * 1000`. -/
def CACHE_EXPIRY : Nat := 2 * 60 * 60 * 1000

/-- `MAX_CACHE_SIZE * 0.8`, which is exact in IEEE doubles: 41943040. -/
def EVICTION_TARGET : Nat := 41943040

/-- JS `s.includes(sub)`: `sub` occurs as a contiguous substring of `s`. -/
def includes : Str → Str → Bool
  | [], sub => sub.isEmpty
  | c :: rest, sub => sub.isPrefixOf (c :: rest) || includes rest sub

/-- `const CACHEABLE_EXTENSIONS = ['.m3u8', '.ts', '.mp4', '.webm']`. -/
def CACHEABLE_EXTENSIONS : List Str :=
  [".m3u8".data, ".ts".data, ".mp4".data, ".webm".data]

/-- `shouldCache(url)`: `CACHEABLE_EXTENSIONS.some(ext => url.includes(ext))`. -/
def shouldCache (url : Str) : Bool :=
  CACHEABLE_EXTENSIONS.any (fun ext => includes url ext)

/-- The named store: an association list from request URL to response.
The real Cache API keys entries by request; we identify a request with its
URL string, which is how the service worker uses it. -/
abbrev Cache := List (Str × Response)

/-- `cache.match(request)`: first entry stored under the request URL. -/
def cacheMatch (c : Cache) (request : Str) : Option Response :=
  match c with
  | [] => none
  | e :: rest => if e.1 == request then some e.2 else cacheMatch rest request

/-- `cache.put(request, response)`: overwrite the entry for the request URL,
or append a new one. -/
def cachePut (c : Cache) (request : Str) (response : Response) : Cache :=
  match c with
  | [] => [(request, response)]
  | e :: rest =>
    if e.1 == request then (request, response) :: rest
    else e :: cachePut rest request response

/-- `cache.delete(request)`: remove the entry stored under the request URL. -/
def cacheDelete (c : Cache) (request : Str) : Cache :=
  c.filter (fun e => !(e.1 == request))

/-- `headers.set('sw-cache-time', Date.now().toString())`. -/
def setCacheTime (h : Headers) (t : Nat) : Headers :=
  { h with swCacheTime := some t }

/-- The response built by `cacheWithTimestamp`: same status, status text and
body stream, headers with the freshness stamp set to the current time. -/
def addTimestamp (response : Response) (now : Nat) : Response :=
  { response with headers := setCacheTime response.headers now }

/-- The platform outcome of one `cacheWithTimestamp` call, resolving the
nondeterminism of its `try`/`catch` structure: the stamped put of the
rebuilt response succeeds (`stamped`, the normal path); the stamped put
throws and the `catch` fallback put of the original response succeeds
(`fallback`); or both puts throw and nothing is stored (`dropped`). -/
inductive PutAttempt where
  | stamped
  | fallback
  | dropped
  deriving Repr, DecidableEq

/-- `cacheWithTimestamp(cache, request, response)` at clock reading `now`:
on the normal path the response is stored with the `sw-cache-time` stamp
set; when the stamped put throws, the coded fallback stores the original
response without a stamp; when the fallback also throws, the error is only
logged and nothing is stored. -/
def cacheWithTimestamp (c : Cache) (request : Str) (response : Response)
    (now : Nat) : PutAttempt → Cache
  | .stamped => cachePut c request (addTimestamp response now)
  | .fallback => cachePut c request response
  | .dropped => c

/-- `isCacheExpired(response)` at clock reading `now`: a missing
`sw-cache-time` header means expired, otherwise the age must not exceed
`CACHE_EXPIRY` (strict comparison, as in `age > CACHE_EXPIRY`). -/
def isCacheExpired (now : Nat) (r : Response) : Bool :=
  match r.headers.swCacheTime with
  | none => true
  | some t => decide ((now : Int) - (t : Int) > (CACHE_EXPIRY : Int))

/-- The byte-size measurement used by the governor, the size query and the
per-video invalidation: `blob.size` when `response.blob()` succeeds,
otherwise `parseInt(content-length)` defaulting to 0. -/
def measureSize (r : Response) : Nat :=
  if r.blobOk then r.body.length else r.headers.contentLength.getD 0

/-- Sum of the measured sizes of every stored entry. -/
def totalMeasured (c : Cache) : Nat :=
  (c.map (fun e => measureSize e.2)).sum

/-- Outcome of the fetch handler for a cacheable request: the cache state it
leaves behind, the response it resolves with (or the propagated network
error), and whether it started a background `.m3u8` refresh fetch. -/
structure FetchResult where
  cache : Cache
  response : Except Unit Response
  refreshIssued : Bool

/-- The network branch of the fetch handler (the `try`/`catch` block):
`net` is the outcome of `fetch(request)`, `cachedResponse` the result of the
earlier `cache.match`.  A successful `response.ok` fetch is written back with
a freshness stamp; a thrown fetch returns the stale `cachedResponse` when one
was found, else rethrows.  The asynchronous `manageCacheSize()` pass that a
successful write triggers is modelled as a separate function. -/
def networkPath (now : Nat) (c : Cache) (url : Str) (net : Except Unit Response)
    (cachedResponse : Option Response) (pa : PutAttempt) : FetchResult :=
  match net with
  | .ok networkResponse =>
    if networkResponse.ok then
      { cache := cacheWithTimestamp c url networkResponse now pa
        response := .ok networkResponse
        refreshIssued := false }
    else
      { cache := c, response := .ok networkResponse, refreshIssued := false }
  | .error e =>
    match cachedResponse with
    | some stale => { cache := c, response := .ok stale, refreshIssued := false }
    | none => { cache := c, response := .error e, refreshIssued := false }

/-- The fetch-event handler body for a cacheable URL (lines 131-185 of
`sw.js`): look up the cache; serve a fresh hit directly (starting a
background refresh when the URL contains `.m3u8`); delete an expired hit
and fall through to the network branch; on a miss go straight to the
network branch. -/
def handleCacheableFetch (now : Nat) (c : Cache) (url : Str)
    (net : Except Unit Response) (pa : PutAttempt) : FetchResult :=
  match cacheMatch c url with
  | some cachedResponse =>
    if isCacheExpired now cachedResponse then
      networkPath now (cacheDelete c url) url net (some cachedResponse) pa
    else
      { cache := c
        response := .ok cachedResponse
        refreshIssued := includes url (".m3u8".data) }
  | none => networkPath now c url net none pa

/-- The fire-and-forget `.m3u8` background refresh: on a successful `ok`
fetch the entry is overwritten with a fresh stamp; a thrown fetch (or a
non-ok status) leaves the cache untouched (`.catch(() => {})`). -/
def backgroundRefresh (now : Nat) (c : Cache) (request : Str)
    (net : Except Unit Response) (pa : PutAttempt) : Cache :=
  match net with
  | .ok response =>
    if response.ok then cacheWithTimestamp c request response now pa else c
  | .error _ => c

/-- The per-entry record built by `manageCacheSize`: request URL, measured
size, and freshness-stamp time (`'0'`, i.e. oldest, when the stamp header is
missing). -/
structure CacheItem where
  request : Str
  size : Nat
  time : Nat
  deriving Repr, DecidableEq

/-- The item `manageCacheSize` builds for one stored entry. -/
def itemOfEntry (e : Str × Response) : CacheItem :=
  { request := e.1
    size := measureSize e.2
    time := e.2.headers.swCacheTime.getD 0 }

/-- The `items` array of `manageCacheSize`. -/
def cacheItems (c : Cache) : List CacheItem := c.map itemOfEntry

/-- Total measured size of a list of items. -/
def sumSizes (items : List CacheItem) : Nat := (items.map CacheItem.size).sum

/-- The comparator `(a, b) => a.time - b.time`: ascending by stamp time. -/
def timeLe (a b : CacheItem) : Bool := decide (a.time ≤ b.time)

/-- `items.sort((a, b) => a.time - b.time)`: a stable ascending sort. -/
def sortedItems (c : Cache) : List CacheItem :=
  (cacheItems c).mergeSort timeLe

/-- The eviction loop: walk the oldest-first items, stopping as soon as the
running total is at or below the target, deleting (collecting) each item
passed and subtracting its size.  Returns the deleted items and the final
running total. -/
def evict (target : Nat) : List CacheItem → Nat → List CacheItem × Nat
  | [], total => ([], total)
  | i :: rest, total =>
    if total ≤ target then ([], total)
    else
      let r := evict target rest (total - i.size)
      (i :: r.1, r.2)

/-- `manageCacheSize()`: measure every entry; when the total exceeds
`MAX_CACHE_SIZE`, delete entries oldest-first until the running total is at
or below 80% of the ceiling. -/
def manageCacheSize (c : Cache) : Cache :=
  let totalSize := sumSizes (cacheItems c)
  if totalSize > MAX_CACHE_SIZE then
    let deleted := (evict EVICTION_TARGET (sortedItems c) totalSize).1
    deleted.foldl (fun acc i => cacheDelete acc i.request) c
  else c

/-- The activate handler: every named store whose name differs from
`CACHE_NAME` is deleted (`caches.delete(cacheName)`); the store named
`CACHE_NAME` is kept untouched.  The universe of named stores is modelled
as an association list from store name to store. -/
def activate (stores : List (Str × Cache)) : List (Str × Cache) :=
  stores.filter (fun s => s.1 == CACHE_NAME)

/-- The `GET_CACHE_SIZE` loop: sum the measured size of every stored entry
and report it with `keys.length`. -/
def getCacheSize : Cache → Nat × Nat
  | [] => (0, 0)
  | e :: rest =>
    let r := getCacheSize rest
    (r.1 + measureSize e.2, r.2 + 1)

/-- JS `s.split(sep)` for a single-character separator. -/
def splitOnChar (sep : Char) : Str → List Str
  | [] => [[]]
  | c :: cs =>
    if c = sep then [] :: splitOnChar sep cs
    else
      match splitOnChar sep cs with
      | [] => [[c]]
      | h :: t => (c :: h) :: t

/-- JS `parts.join(sep)` for a single-character separator. -/
def joinChar (sep : Char) (parts : List Str) : Str :=
  List.intercalate [sep] parts

/-- The `origin` and `pathname` of a parsed URL, the only components
`getVideoBasePath` reads. -/
structure URLParts where
  origin : Str
  pathname : Str
  deriving Repr, DecidableEq

/-- Parse `scheme://host/path` for one given scheme marker: the host runs to
the first `/` and must be nonempty, the pathname is the rest (`/` when the
URL has no path). -/
def parseWithScheme (schemeMarker url : Str) : Option URLParts :=
  if schemeMarker.isPrefixOf url then
    let rest := url.drop schemeMarker.length
    let host := rest.takeWhile (fun c => !(c == '/'))
    let path := rest.dropWhile (fun c => !(c == '/'))
    if host.isEmpty then none
    else some { origin := schemeMarker ++ host
                pathname := if path.isEmpty then ['/'] else path }
  else none

/-- Model of the platform `new URL(url)` constructor restricted to what the
service worker feeds it: absolute `http`/`https` URLs parse into origin and
pathname, anything else throws (returns `none`).  Query/fragment splitting
is not modelled; no claim depends on it. -/
def parseURL (url : Str) : Option URLParts :=
  match parseWithScheme ("https://".data) url with
  | some u => some u
  | none => parseWithScheme ("http://".data) url

/-- `getVideoBasePath(url)`: origin plus the pathname with its final
`/`-separated component removed; when `new URL` throws, the same
filename-stripping applied to the raw string. -/
def getVideoBasePath (url : Str) : Str :=
  match parseURL url with
  | some urlObj => urlObj.origin ++ joinChar '/' ((splitOnChar '/' urlObj.pathname).dropLast)
  | none => joinChar '/' ((splitOnChar '/' url).dropLast)

/-- The deletion test of `clearVideoCache`:
`requestUrl.includes(basePath) || getVideoBasePath(requestUrl) === basePath`. -/
def videoMatches (basePath requestUrl : Str) : Bool :=
  includes requestUrl basePath || (getVideoBasePath requestUrl == basePath)

/-- The key-enumeration loop of `clearVideoCache`: returns the surviving
store, the number of deleted entries and their summed measured size. -/
def clearLoop (basePath : Str) : Cache → Cache × Nat × Nat
  | [] => ([], 0, 0)
  | (k, r) :: rest =>
    let res := clearLoop basePath rest
    if videoMatches basePath k then
      (res.1, res.2.1 + 1, res.2.2 + measureSize r)
    else
      ((k, r) :: res.1, res.2.1, res.2.2)

/-- `clearVideoCache(videoUrl)`: delete every entry matching the derived
base path, reporting `{deletedCount, deletedSize}` (here together with the
surviving store). -/
def clearVideoCache (c : Cache) (videoUrl : Str) : Cache × Nat × Nat :=
  clearLoop (getVideoBasePath videoUrl) c

/-- A plain 200 response with no body and no stamp, used as concrete data. -/
def plainResponse : Response :=
  { status := 200, statusText := [], body := [], blobOk := true
    headers := { swCacheTime := none, contentLength := none } }

/-- A response stamped at time `t`. -/
def stampedResponse (t : Nat) : Response :=
  { plainResponse with headers := { swCacheTime := some t, contentLength := none } }

/-- A response whose body measures exactly 1000 bytes. -/
def kilobyteResponse : Response :=
  { plainResponse with body := List.replicate 1000 'a' }

/-- A response measured via the content-length fallback as 30 MB. -/
def bigResponse (t : Nat) : Response :=
  { status := 200, statusText := [], body := [], blobOk := false
    headers := { swCacheTime := some t, contentLength := some 31457280 } }

/-- The invariant of claim C7: every stored entry carries a freshness
stamp. -/
def allStamped (c : Cache) : Prop :=
  ∀ e ∈ c, e.2.headers.swCacheTime.isSome = true

instance (c : Cache) : Decidable (allStamped c) :=
  inferInstanceAs (Decidable (∀ e ∈ c, e.2.headers.swCacheTime.isSome = true))

/-- The three concrete example URLs of claim C5. -/
def urlA1 : Str := "https://cdn/a/video.m3u8".data

/-- Second entry under the `/a/` base path. -/
def urlA2 : Str := "https://cdn/a/seg1.ts".data

/-- The entry under the `/b/` base path. -/
def urlB : Str := "https://cdn/b/video.m3u8".data

/-- A two-entry store of 30 MB responses, exceeding the 50 MB ceiling. -/
def bigCache : Cache := [(urlA2, bigResponse 1), (urlB, bigResponse 2)]

/-! ## Helper lemmas -/

theorem includes_iff (s sub : Str) : includes s sub = true ↔ sub <:+: s := by
  induction s with
  | nil =>
    simp [includes, List.isEmpty_iff, List.infix_nil]
  | cons c rest ih =>
    simp [includes, Bool.or_eq_true, List.isPrefixOf_iff_prefix, ih,
      List.infix_cons_iff]

theorem includes_nil (s : Str) : includes s [] = true := by
  cases s with
  | nil => rfl
  | cons c rest => simp [includes]

theorem cacheMatch_put_self (c : Cache) (k : Str) (v : Response) :
    cacheMatch (cachePut c k v) k = some v := by
  induction c with
  | nil => simp [cachePut, cacheMatch]
  | cons e rest ih =>
    by_cases h : e.1 == k
    · simp [cachePut, h, cacheMatch]
    · simp [cachePut, h, cacheMatch, ih]

theorem cacheMatch_delete_self (c : Cache) (k : Str) :
    cacheMatch (cacheDelete c k) k = none := by
  induction c with
  | nil => rfl
  | cons e rest ih =>
    by_cases h : e.1 == k
    · simpa [cacheDelete, List.filter_cons, h] using ih
    · simpa [cacheDelete, List.filter_cons, h, cacheMatch] using ih

theorem mem_cachePut (k : Str) (v : Response) (e : Str × Response) :
    ∀ (c : Cache), e ∈ cachePut c k v → e ∈ c ∨ e = (k, v)
  | [], h => by
    simp only [cachePut, List.mem_singleton] at h
    exact Or.inr h
  | f :: rest, h => by
    by_cases hf : f.1 == k
    · simp only [cachePut, if_pos hf, List.mem_cons] at h
      rcases h with h1 | h1
      · exact Or.inr h1
      · exact Or.inl (List.mem_cons_of_mem _ h1)
    · simp only [cachePut, if_neg hf, List.mem_cons] at h
      rcases h with h1 | h1
      · exact Or.inl (h1 ▸ List.mem_cons_self _ _)
      · rcases mem_cachePut k v e rest h1 with h2 | h2
        · exact Or.inl (List.mem_cons_of_mem _ h2)
        · exact Or.inr h2

theorem mem_cacheDelete {e : Str × Response} {c : Cache} {k : Str}
    (h : e ∈ cacheDelete c k) : e ∈ c :=
  (List.mem_filter.1 h).1

theorem allStamped_delete {c : Cache} {k : Str} (hc : allStamped c) :
    allStamped (cacheDelete c k) :=
  fun e he => hc e (mem_cacheDelete he)

theorem allStamped_put {c : Cache} {k : Str} {v : Response} (hc : allStamped c)
    (hv : v.headers.swCacheTime.isSome = true) : allStamped (cachePut c k v) := by
  intro e he
  rcases mem_cachePut k v e c he with h | h
  · exact hc e h
  · rw [h]; exact hv

theorem allStamped_networkPath {now : Nat} {c : Cache} {url : Str}
    {net : Except Unit Response} {cr : Option Response} (hc : allStamped c) :
    allStamped (networkPath now c url net cr PutAttempt.stamped).cache := by
  cases net with
  | ok resp =>
    by_cases h : resp.ok
    · simpa [networkPath, h, cacheWithTimestamp] using
        allStamped_put hc (by simp [addTimestamp, setCacheTime])
    · simpa [networkPath, h] using hc
  | error e =>
    cases cr with
    | some stale => simpa [networkPath] using hc
    | none => simpa [networkPath] using hc

/-! ## Claims -/

/-- C4: `shouldCache(url)` returns true iff the URL contains one of the four
extension markers `.m3u8`, `.ts`, `.mp4`, `.webm` as a substring of the full
URL, and false for every other URL. -/
theorem shouldCache_iff_marker_substring (url : Str) :
    shouldCache url = true ↔
      (".m3u8".data <:+: url ∨ ".ts".data <:+: url ∨
        ".mp4".data <:+: url ∨ ".webm".data <:+: url) := by
  simp [shouldCache, CACHEABLE_EXTENSIONS, includes_iff]

/-- C9: the `GET_CACHE_SIZE` reply carries the number of stored keys and the
sum of the entries' measured sizes; on the empty store it is `(0, 0)` and
with a single 1000-byte entry it is `(1000, 1)`. -/
theorem getCacheSize_reports_sum_and_count :
    (∀ c : Cache, getCacheSize c = (totalMeasured c, c.length)) ∧
    getCacheSize ([] : Cache) = (0, 0) ∧
    ∀ (k : Str) (r : Response), measureSize r = 1000 →
      getCacheSize [(k, r)] = (1000, 1) := by
  have main : ∀ c : Cache, getCacheSize c = (totalMeasured c, c.length) := by
    intro c
    induction c with
    | nil => simp [getCacheSize, totalMeasured]
    | cons e rest ih => simp [getCacheSize, totalMeasured, ih, Nat.add_comm]
  refine ⟨main, by simp [getCacheSize], ?_⟩
  intro k r h
  simp [main, totalMeasured, h]

/-- Helper: the 1000-byte sample measures at exactly 1000. -/
theorem measureSize_kilobyte : measureSize kilobyteResponse = 1000 := by
  show (if kilobyteResponse.blobOk then kilobyteResponse.body.length
        else kilobyteResponse.headers.contentLength.getD 0) = 1000
  rw [show kilobyteResponse.blobOk = true from rfl, if_pos rfl,
    show kilobyteResponse.body = List.replicate 1000 'a' from rfl,
    List.length_replicate]

/-- Witness for C9 at a concrete 1000-byte entry. -/
theorem getCacheSize_reports_sum_and_count_witness :
    measureSize kilobyteResponse = 1000 ∧
    getCacheSize [(([] : Str), kilobyteResponse)] = (1000, 1) :=
  ⟨measureSize_kilobyte,
    getCacheSize_reports_sum_and_count.2.2 [] kilobyteResponse measureSize_kilobyte⟩

/-- C7 counterexample: the coded `catch` fallback of `cacheWithTimestamp`
(sw.js:31-36) is a write path of this system that stores the original
response without a `sw-cache-time` header, so the every-entry-stamped
invariant does not hold after every write path. -/
theorem writes_always_stamped_counterexample :
    cacheMatch (cacheWithTimestamp [] urlA2 plainResponse 5 PutAttempt.fallback)
        urlA2 = some plainResponse ∧
    plainResponse.headers.swCacheTime = none := by
  exact ⟨by decide, rfl⟩

/-- C7 as amended: every write whose stamped put succeeds (the
non-exceptional path) stores the entry with the `sw-cache-time` stamp set
to the write-time clock reading — so a put followed by a get returns the
just-stamped entry — and both the fetch handler and the background refresh
preserve the every-entry-stamped invariant on that path; when the stamped
put throws, the coded fallback stores the original response unstamped
(such an entry reads as expired). -/
theorem writes_always_stamped :
    (∀ (c : Cache) (url : Str) (resp : Response) (now : Nat),
        cacheMatch (cacheWithTimestamp c url resp now PutAttempt.stamped) url
            = some (addTimestamp resp now) ∧
          (addTimestamp resp now).headers.swCacheTime = some now) ∧
    (∀ (c : Cache) (url : Str) (resp : Response) (now : Nat),
        cacheWithTimestamp c url resp now PutAttempt.fallback
          = cachePut c url resp) ∧
    (∀ (now : Nat) (c : Cache) (url : Str) (net : Except Unit Response),
        allStamped c →
          allStamped (handleCacheableFetch now c url net PutAttempt.stamped).cache) ∧
    (∀ (now : Nat) (c : Cache) (url : Str) (net : Except Unit Response),
        allStamped c →
          allStamped (backgroundRefresh now c url net PutAttempt.stamped)) := by
  refine ⟨?_, fun c url resp now => rfl, ?_, ?_⟩
  · intro c url resp now
    exact ⟨cacheMatch_put_self c url (addTimestamp resp now), rfl⟩
  · intro now c url net hc
    cases hm : cacheMatch c url with
    | some cached =>
      by_cases he : isCacheExpired now cached
      · have h2 := @allStamped_networkPath now (cacheDelete c url) url net
          (some cached) (@allStamped_delete c url hc)
        simpa [handleCacheableFetch, hm, he] using h2
      · simpa [handleCacheableFetch, hm, he] using hc
    | none =>
      have h2 := @allStamped_networkPath now c url net none hc
      simpa [handleCacheableFetch, hm] using h2
  · intro now c url net hc
    cases net with
    | ok resp =>
      by_cases h : resp.ok
      · have h2 := @allStamped_put c url (addTimestamp resp now) hc
          (by simp [addTimestamp, setCacheTime])
        simpa [backgroundRefresh, h, cacheWithTimestamp] using h2
      · simpa [backgroundRefresh, h] using hc
    | error e => simpa [backgroundRefresh] using hc

/-- Witness for C7: the invariant-preservation conjuncts applied to a
one-entry stamped store. -/
theorem writes_always_stamped_witness :
    allStamped [((urlA2 : Str), stampedResponse 5)] ∧
    allStamped (handleCacheableFetch 10 [(urlA2, stampedResponse 5)] urlA2
      (.error ()) PutAttempt.stamped).cache ∧
    allStamped (backgroundRefresh 10 [(urlA2, stampedResponse 5)] urlA2
      (.error ()) PutAttempt.stamped) :=
  ⟨by decide,
    writes_always_stamped.2.2.1 10 [(urlA2, stampedResponse 5)] urlA2 (.error ())
      (by decide),
    writes_always_stamped.2.2.2 10 [(urlA2, stampedResponse 5)] urlA2 (.error ())
      (by decide)⟩

/-- C1: an expired (or stampless) cached entry is never served from cache:
the handler deletes it and behaves on every successful fetch — whatever the
platform outcome of the write-back — exactly as if no entry existed,
returning the network response; the stale entry is returned only when the
network fetch throws, and then the slot is left empty; on the normal
(stamped-put) path a successful ok fetch leaves the slot holding the
freshly stamped network response instead of the expired entry. -/
theorem expired_entry_not_served_from_cache (now : Nat) (c : Cache) (url : Str)
    (cached : Response) (hm : cacheMatch c url = some cached)
    (he : isCacheExpired now cached = true) :
    (∀ (resp : Response) (pa : PutAttempt),
        handleCacheableFetch now c url (.ok resp) pa
          = handleCacheableFetch now (cacheDelete c url) url (.ok resp) pa) ∧
    (∀ (resp : Response) (pa : PutAttempt),
        (handleCacheableFetch now c url (.ok resp) pa).response = .ok resp) ∧
    (∀ pa : PutAttempt,
        (handleCacheableFetch now c url (.error ()) pa).response = .ok cached ∧
        cacheMatch (handleCacheableFetch now c url (.error ()) pa).cache url
          = none) ∧
    (∀ resp : Response, resp.ok = true →
        cacheMatch (handleCacheableFetch now c url (.ok resp)
            PutAttempt.stamped).cache url
          = some (addTimestamp resp now)) := by
  have hdel := cacheMatch_delete_self c url
  refine ⟨?_, ?_, ?_, ?_⟩
  · intro resp pa
    by_cases hok : resp.ok <;>
      simp [handleCacheableFetch, hm, he, hdel, networkPath, hok]
  · intro resp pa
    by_cases hok : resp.ok <;>
      simp [handleCacheableFetch, hm, he, networkPath, hok]
  · intro pa
    constructor
    · simp [handleCacheableFetch, hm, he, networkPath]
    · simp [handleCacheableFetch, hm, he, networkPath, hdel]
  · intro resp hok
    simp [handleCacheableFetch, hm, he, networkPath, hok, cacheWithTimestamp,
      cacheMatch_put_self]

/-- Witness for C1: a store holding an entry stamped at time 0, read at
time 7200001 (one millisecond past the expiry window). -/
theorem expired_entry_not_served_from_cache_witness :
    cacheMatch [((urlA2 : Str), stampedResponse 0)] urlA2
        = some (stampedResponse 0) ∧
    isCacheExpired 7200001 (stampedResponse 0) = true ∧
    (handleCacheableFetch 7200001 [(urlA2, stampedResponse 0)] urlA2
        (.error ()) PutAttempt.stamped).response = .ok (stampedResponse 0) :=
  ⟨by decide, by decide,
    ((expired_entry_not_served_from_cache 7200001 [(urlA2, stampedResponse 0)]
      urlA2 (stampedResponse 0) (by decide) (by decide)).2.2.1
        PutAttempt.stamped).1⟩

/-- C3: when the network fetch throws, a previously looked-up cached entry
(fresh or expired) is returned instead of the failure; with no cached entry
the same failure propagates. -/
theorem network_failure_serves_stale_or_propagates (now : Nat) (c : Cache)
    (url : Str) :
    (∀ (cached : Response) (pa : PutAttempt), cacheMatch c url = some cached →
        (handleCacheableFetch now c url (.error ()) pa).response = .ok cached) ∧
    (∀ pa : PutAttempt, cacheMatch c url = none →
        handleCacheableFetch now c url (.error ()) pa
          = { cache := c, response := .error (), refreshIssued := false }) := by
  constructor
  · intro cached pa hm
    by_cases he : isCacheExpired now cached <;>
      simp [handleCacheableFetch, hm, he, networkPath]
  · intro pa hm
    simp [handleCacheableFetch, hm, networkPath]

/-- Witness for C3: both arms at concrete one-entry and empty stores. -/
theorem network_failure_serves_stale_or_propagates_witness :
    cacheMatch [((urlA2 : Str), plainResponse)] urlA2 = some plainResponse ∧
    (handleCacheableFetch 0 [(urlA2, plainResponse)] urlA2
        (.error ()) PutAttempt.stamped).response = .ok plainResponse ∧
    handleCacheableFetch 0 ([] : Cache) urlA2 (.error ()) PutAttempt.stamped
      = { cache := [], response := .error (), refreshIssued := false } :=
  ⟨by decide,
    (network_failure_serves_stale_or_propagates 0 [(urlA2, plainResponse)]
      urlA2).1 plainResponse PutAttempt.stamped (by decide),
    (network_failure_serves_stale_or_propagates 0 [] urlA2).2
      PutAttempt.stamped (by decide)⟩

/-- C6 counterexample: a fresh cache hit on a `.m3u8` URL whose successful
ok background refresh goes through the coded `catch` fallback of
`cacheWithTimestamp` (sw.js:31-36) overwrites the entry with the raw
network response carrying no `sw-cache-time` header at all, so the stored
freshness stamp does not strictly increase. -/
theorem fresh_manifest_hit_background_refresh_counterexample :
    isCacheExpired 10 (stampedResponse 5) = false ∧
    includes urlA1 (".m3u8".data) = true ∧
    plainResponse.ok = true ∧
    cacheMatch (backgroundRefresh 20 [(urlA1, stampedResponse 5)] urlA1
        (.ok plainResponse) PutAttempt.fallback) urlA1 = some plainResponse ∧
    plainResponse.headers.swCacheTime = none := by
  exact ⟨by decide, by decide, by decide, by decide, rfl⟩

/-- C6 as amended: a fresh cache hit on a `.m3u8` URL is served from cache
and starts a background refresh; a successful `ok` refresh whose stamped
put succeeds (the non-exceptional path), at a strictly later clock
reading, overwrites the entry with a strictly larger freshness stamp; a
thrown refresh is swallowed and leaves the store unchanged.  (When the
stamped put throws, the coded fallback overwrites the entry with the raw
unstamped response instead.) -/
theorem fresh_manifest_hit_background_refresh (now now₂ : Nat) (c : Cache)
    (url : Str) (cached : Response) (t : Nat)
    (hm : cacheMatch c url = some cached)
    (hf : isCacheExpired now cached = false)
    (hm3u8 : includes url (".m3u8".data) = true)
    (ht : cached.headers.swCacheTime = some t)
    (hlt : t < now₂) :
    (∀ (net : Except Unit Response) (pa : PutAttempt),
        handleCacheableFetch now c url net pa
          = { cache := c, response := .ok cached, refreshIssued := true }) ∧
    (∀ resp : Response, resp.ok = true →
        cacheMatch (backgroundRefresh now₂ c url (.ok resp)
              PutAttempt.stamped) url
            = some (addTimestamp resp now₂) ∧
          (addTimestamp resp now₂).headers.swCacheTime = some now₂ ∧ t < now₂) ∧
    (∀ pa : PutAttempt, backgroundRefresh now₂ c url (.error ()) pa = c) := by
  refine ⟨?_, ?_, fun pa => rfl⟩
  · intro net pa
    simp [handleCacheableFetch, hm, hf, hm3u8]
  · intro resp hok
    exact ⟨by simp [backgroundRefresh, hok, cacheWithTimestamp, cacheMatch_put_self],
      rfl, hlt⟩

/-- Helper: splitting on a character that does not occur leaves the whole
string as the single field. -/
theorem splitOnChar_of_not_mem {sep : Char} :
    ∀ {l : Str}, sep ∉ l → splitOnChar sep l = [l]
  | [], _ => rfl
  | c :: cs, h => by
    have hc : ¬ c = sep := fun hh => h (by rw [hh]; exact List.mem_cons_self _ _)
    have hcs : sep ∉ cs := fun hh => h (List.mem_cons_of_mem _ hh)
    simp only [splitOnChar, if_neg hc, splitOnChar_of_not_mem hcs]

/-- Helper: an empty base path passes the deletion test of every key. -/
theorem videoMatches_nil (k : Str) : videoMatches [] k = true := by
  simp [videoMatches, includes_nil]

/-- Helper: the enumeration loop of `clearVideoCache` keeps exactly the
non-matching entries and reports the count and summed size of the matching
ones. -/
theorem clearLoop_eq_filter (bp : Str) :
    ∀ c : Cache,
      clearLoop bp c
        = (c.filter (fun e => !(videoMatches bp e.1)),
           (c.filter (fun e => videoMatches bp e.1)).length,
           ((c.filter (fun e => videoMatches bp e.1)).map
             (fun e => measureSize e.2)).sum)
  | [] => rfl
  | (k, r) :: rest => by
    have ih := clearLoop_eq_filter bp rest
    by_cases h : videoMatches bp k
    · simp [clearLoop, ih, h, List.filter_cons, Nat.add_comm]
    · simp [clearLoop, ih, h, List.filter_cons]

/-- C5: per-video invalidation deletes exactly the entries whose URL
contains the derived base path as a substring or whose own derived base
path equals the target's, reporting their count and summed measured size;
on the three concrete example entries, invalidating the `/a/` manifest
deletes the two `/a/` entries, leaves `/b/` untouched and reports
`deletedCount = 2`. -/
theorem clearVideoCache_matches_base_path :
    (∀ (c : Cache) (videoUrl : Str),
        clearVideoCache c videoUrl
          = (c.filter (fun e => !(videoMatches (getVideoBasePath videoUrl) e.1)),
             (c.filter (fun e => videoMatches (getVideoBasePath videoUrl) e.1)).length,
             ((c.filter (fun e => videoMatches (getVideoBasePath videoUrl) e.1)).map
               (fun e => measureSize e.2)).sum)) ∧
    (∀ r₁ r₂ r₃ : Response,
        (clearVideoCache [(urlA1, r₁), (urlA2, r₂), (urlB, r₃)] urlA1).1
            = [(urlB, r₃)] ∧
          (clearVideoCache [(urlA1, r₁), (urlA2, r₂), (urlB, r₃)] urlA1).2.1 = 2) := by
  refine ⟨fun c videoUrl => clearLoop_eq_filter _ c, ?_⟩
  intro r₁ r₂ r₃
  have h1 : videoMatches (getVideoBasePath urlA1) urlA1 = true := by decide
  have h2 : videoMatches (getVideoBasePath urlA1) urlA2 = true := by decide
  have h3 : videoMatches (getVideoBasePath urlA1) urlB = false := by decide
  constructor <;> simp [clearVideoCache, clearLoop, h1, h2, h3]

/-- C10: invalidating with an unparseable URL containing no slash derives an
empty base path, which matches every stored key, so the whole store is
deleted and `deletedCount` equals the number of stored keys. -/
theorem unparseable_url_clears_everything (c : Cache) (input : Str)
    (h1 : parseURL input = none) (h2 : '/' ∉ input) :
    getVideoBasePath input = [] ∧
    clearVideoCache c input = ([], c.length, totalMeasured c) := by
  have hbp : getVideoBasePath input = [] := by
    simp [getVideoBasePath, h1, splitOnChar_of_not_mem h2, joinChar,
      List.intercalate]
  refine ⟨hbp, ?_⟩
  rw [clearVideoCache, hbp, clearLoop_eq_filter]
  simp [videoMatches_nil, totalMeasured]

/-- Witness for C10: the literal `notaurl` clears a one-entry store. -/
theorem unparseable_url_clears_everything_witness :
    parseURL ("notaurl".data) = none ∧ '/' ∉ ("notaurl".data) ∧
    clearVideoCache [((urlA2 : Str), plainResponse)] ("notaurl".data)
      = ([], 1, totalMeasured [(urlA2, plainResponse)]) :=
  ⟨by decide, by decide,
    (unparseable_url_clears_everything [(urlA2, plainResponse)] ("notaurl".data)
      (by decide) (by decide)).2⟩

/-- C8: generation rollover deletes every differently-named store in full,
keeps the current generation's store untouched, and leaves at most one live
store when store names are unique. -/
theorem activate_deletes_other_generations (stores : List (Str × Cache)) :
    (∀ s ∈ stores, s.1 ≠ CACHE_NAME → s ∉ activate stores) ∧
    (∀ s ∈ stores, s.1 = CACHE_NAME → s ∈ activate stores) ∧
    (∀ s ∈ activate stores, s.1 = CACHE_NAME) ∧
    ((stores.map Prod.fst).Nodup → (activate stores).length ≤ 1) := by
  have hall : ∀ s ∈ activate stores, s.1 = CACHE_NAME := by
    intro s hmem
    have h := (List.mem_filter.1 hmem).2
    simpa using h
  refine ⟨?_, ?_, hall, ?_⟩
  · intro s _ hne hmem
    exact hne (hall s hmem)
  · intro s hs heq
    exact List.mem_filter.2 ⟨hs, by simpa using heq⟩
  · intro hnd
    have hnd2 : ((activate stores).map Prod.fst).Nodup :=
      ((List.filter_sublist stores).map Prod.fst).nodup hnd
    cases hres : activate stores with
    | nil => simp
    | cons a rest =>
      cases rest with
      | nil => simp
      | cons b t =>
        exfalso
        have ha : a.1 = CACHE_NAME := hall a (by rw [hres]; exact List.mem_cons_self _ _)
        have hb : b.1 = CACHE_NAME := hall b (by rw [hres]; simp)
        rw [hres, List.map_cons, List.map_cons, List.nodup_cons] at hnd2
        exact hnd2.1 (by rw [ha, ← hb]; exact List.mem_cons_self _ _)

/-- Witness for C8: a universe holding the current store and one stale
generation. -/
theorem activate_deletes_other_generations_witness :
    ("old-cache".data ≠ CACHE_NAME) ∧
    (("old-cache".data, ([] : Cache))
        ∉ activate [(CACHE_NAME, ([] : Cache)), ("old-cache".data, [])]) ∧
    (activate [(CACHE_NAME, ([] : Cache)), ("old-cache".data, [])]).length ≤ 1 :=
  ⟨by decide,
    (activate_deletes_other_generations
        [(CACHE_NAME, []), ("old-cache".data, [])]).1
      ("old-cache".data, []) (by decide) (by decide),
    (activate_deletes_other_generations
        [(CACHE_NAME, []), ("old-cache".data, [])]).2.2.2 (by decide)⟩

/-- Witness for C6: a one-entry store whose manifest was stamped at 5, hit
at 10, refreshed at 20. -/
theorem fresh_manifest_hit_background_refresh_witness :
    cacheMatch [((urlA1 : Str), stampedResponse 5)] urlA1
        = some (stampedResponse 5) ∧
    isCacheExpired 10 (stampedResponse 5) = false ∧
    includes urlA1 (".m3u8".data) = true ∧
    (stampedResponse 5).headers.swCacheTime = some 5 ∧
    backgroundRefresh 20 [(urlA1, stampedResponse 5)] urlA1 (.error ())
        PutAttempt.stamped
      = [(urlA1, stampedResponse 5)] :=
  ⟨by decide, by decide, by decide, by decide,
    (fresh_manifest_hit_background_refresh 10 20 [(urlA1, stampedResponse 5)]
      urlA1 (stampedResponse 5) 5 (by decide) (by decide) (by decide)
      (by decide) (by decide)).2.2 PutAttempt.stamped⟩

/-- Helper: `sumSizes` of a cons. -/
theorem sumSizes_cons (i : CacheItem) (l : List CacheItem) :
    sumSizes (i :: l) = i.size + sumSizes l := by
  simp [sumSizes]

/-- Helper: a take/drop split of the measured item sizes. -/
theorem sumSizes_take_drop (l : List CacheItem) (k : Nat) :
    sumSizes (l.take k) + sumSizes (l.drop k) = sumSizes l := by
  conv_rhs => rw [← List.take_append_drop k l]
  simp [sumSizes]

/-- Helper: permutations preserve the summed item sizes. -/
theorem sumSizes_perm {l₁ l₂ : List CacheItem} (h : l₁.Perm l₂) :
    sumSizes l₁ = sumSizes l₂ :=
  (h.map CacheItem.size).sum_eq

/-- Helper: full specification of the eviction loop: it deletes a prefix of
the (sorted) item list, the final running total subtracts exactly the
deleted sizes, the loop stops only at or below the target or when the list
is exhausted, and every shorter prefix leaves the total above the target. -/
theorem evict_spec (target : Nat) :
    ∀ (l : List CacheItem) (total : Nat),
      ∃ k, k ≤ l.length ∧ (evict target l total).1 = l.take k ∧
        (evict target l total).2 = total - sumSizes (l.take k) ∧
        (total - sumSizes (l.take k) ≤ target ∨ k = l.length) ∧
        ∀ j, j < k → target < total - sumSizes (l.take j)
  | [], total => by
    refine ⟨0, by simp, by simp [evict], by simp [evict, sumSizes], ?_, by omega⟩
    right; rfl
  | i :: rest, total => by
    by_cases h : total ≤ target
    · refine ⟨0, by simp, by simp [evict, h], by simp [evict, h, sumSizes], ?_, by omega⟩
      left
      simpa [sumSizes] using h
    · obtain ⟨k, hk, h1, h2, h3, h4⟩ := evict_spec target rest (total - i.size)
      refine ⟨k + 1, by simpa using Nat.succ_le_succ hk, ?_, ?_, ?_, ?_⟩
      · simp [evict, h, h1]
      · simp only [evict, if_neg h, List.take_succ_cons, sumSizes_cons]
        rw [h2]
        omega
      · rcases h3 with h3 | h3
        · left
          simp only [List.take_succ_cons, sumSizes_cons]
          omega
        · right
          simp [h3]
      · intro j hj
        cases j with
        | zero =>
          simp only [List.take_zero, sumSizes]
          simpa using Nat.lt_of_not_le h
        | succ j2 =>
          have hlt := h4 j2 (Nat.lt_of_succ_lt_succ hj)
          simp only [List.take_succ_cons, sumSizes_cons]
          omega

/-- Helper: folding `cache.delete` over a list of items removes exactly the
entries whose key matches some deleted item's request URL. -/
theorem foldl_cacheDelete_eq_filter :
    ∀ (ds : List CacheItem) (c : Cache),
      ds.foldl (fun acc i => cacheDelete acc i.request) c
        = c.filter (fun e => !(ds.any (fun i => e.1 == i.request)))
  | [], c => by simp
  | d :: ds, c => by
    rw [List.foldl_cons, foldl_cacheDelete_eq_filter ds (cacheDelete c d.request),
      cacheDelete, List.filter_filter]
    apply List.filter_congr
    intro e _
    cases h1 : e.1 == d.request <;>
      cases h2 : ds.any (fun i => e.1 == i.request) <;> simp [h1, h2]

/-- Helper: filtering the entry list commutes with building the governor's
item records. -/
theorem cacheItems_filter (P : CacheItem → Bool) (c : Cache) :
    cacheItems (c.filter (fun e => P (itemOfEntry e))) = (cacheItems c).filter P := by
  induction c with
  | nil => rfl
  | cons e rest ih =>
    by_cases h : P (itemOfEntry e) <;>
      simp only [cacheItems, List.filter_cons, h, List.map_cons, if_pos, if_neg,
        Bool.false_eq_true, ite_false, ite_true] <;>
      simpa [cacheItems] using ih

/-- Helper: the item records carry exactly the stored keys. -/
theorem cacheItems_map_request (c : Cache) :
    (cacheItems c).map CacheItem.request = c.map Prod.fst := by
  induction c with
  | nil => rfl
  | cons e rest ih => simp [cacheItems, itemOfEntry, ih]

/-- Helper: the total measured size of a store is the summed size of its
governor items. -/
theorem totalMeasured_eq_sumSizes (c : Cache) :
    totalMeasured c = sumSizes (cacheItems c) := by
  simp only [totalMeasured, sumSizes, cacheItems, List.map_map]
  rfl

/-- Helper: with pairwise distinct request URLs, keeping the entries whose
key avoids a deleted prefix keeps exactly the rest of the list. -/
theorem filter_not_anyKeys (ds tail : List CacheItem)
    (hdisj : ∀ i ∈ tail, ∀ d ∈ ds, i.request ≠ d.request) :
    (ds ++ tail).filter (fun i => !(ds.any (fun d => i.request == d.request)))
      = tail := by
  rw [List.filter_append]
  have h1 : ds.filter (fun i => !(ds.any (fun d => i.request == d.request))) = [] := by
    rw [List.filter_eq_nil_iff]
    intro i hi
    have hany : ds.any (fun d => i.request == d.request) = true :=
      List.any_eq_true.2 ⟨i, hi, by simp⟩
    simp [hany]
  have h2 : tail.filter (fun i => !(ds.any (fun d => i.request == d.request))) = tail := by
    rw [List.filter_eq_self]
    intro i hi
    have hany : ds.any (fun d => i.request == d.request) = false :=
      List.any_eq_false.2 (fun d hd hbeq => hdisj i hi d hd (by simpa using hbeq))
    simp [hany]
  rw [h1, h2, List.nil_append]

/-- Helper: the governor's comparator is transitive. -/
theorem timeLe_trans : ∀ (a b c : CacheItem), timeLe a b → timeLe b c → timeLe a c := by
  intro a b c
  simp only [timeLe, decide_eq_true_eq]
  omega

/-- Helper: the governor's comparator is total. -/
theorem timeLe_total : ∀ (a b : CacheItem), timeLe a b || timeLe b a := by
  intro a b
  simp only [timeLe, Bool.or_eq_true, decide_eq_true_eq]
  omega

/-- C2: a governor pass is a no-op when the measured total is within the
50 MB ceiling; when the total exceeds the ceiling, the pass leaves the
remaining measured total at or below the 80% eviction target, and the
deleted entries are exactly a minimal prefix of the items sorted
oldest-first by freshness stamp (missing stamps sorting as time 0): every
strictly shorter prefix would leave the total above the target. -/
theorem manageCacheSize_governs (c : Cache) (hnd : (c.map Prod.fst).Nodup) :
    (totalMeasured c ≤ MAX_CACHE_SIZE → manageCacheSize c = c) ∧
    (MAX_CACHE_SIZE < totalMeasured c →
      totalMeasured (manageCacheSize c) ≤ EVICTION_TARGET ∧
      List.Pairwise (fun a b : CacheItem => a.time ≤ b.time) (sortedItems c) ∧
      (sortedItems c).Perm (cacheItems c) ∧
      ∃ k, k ≤ (sortedItems c).length ∧
        manageCacheSize c
          = c.filter (fun e =>
              !(((sortedItems c).take k).any (fun i => e.1 == i.request))) ∧
        totalMeasured c - sumSizes ((sortedItems c).take k) ≤ EVICTION_TARGET ∧
        ∀ j, j < k →
          EVICTION_TARGET < totalMeasured c - sumSizes ((sortedItems c).take j)) := by
  have hTot := totalMeasured_eq_sumSizes c
  have hperm : (sortedItems c).Perm (cacheItems c) := List.mergeSort_perm _ _
  constructor
  · intro h
    have h2 : ¬ (sumSizes (cacheItems c) > MAX_CACHE_SIZE) := by omega
    simp [manageCacheSize, h2]
  · intro h
    have hgt : sumSizes (cacheItems c) > MAX_CACHE_SIZE := by omega
    obtain ⟨k, hk, he1, he2, he3, he4⟩ :=
      evict_spec EVICTION_TARGET (sortedItems c) (sumSizes (cacheItems c))
    have hman : manageCacheSize c
        = c.filter (fun e =>
            !(((sortedItems c).take k).any (fun i => e.1 == i.request))) := by
      simp only [manageCacheSize]
      rw [if_pos hgt, he1, foldl_cacheDelete_eq_filter]
    have hsum_sorted : sumSizes (sortedItems c) = sumSizes (cacheItems c) :=
      sumSizes_perm hperm
    have hfinal : sumSizes (cacheItems c) - sumSizes ((sortedItems c).take k)
        ≤ EVICTION_TARGET := by
      rcases he3 with h3 | h3
      · exact h3
      · rw [h3, List.take_length, hsum_sorted]
        omega
    have hnd2 : ((sortedItems c).map CacheItem.request).Nodup := by
      refine ((hperm.map CacheItem.request).nodup_iff).2 ?_
      rw [cacheItems_map_request]
      exact hnd
    have hdisj : ∀ i ∈ (sortedItems c).drop k, ∀ d ∈ (sortedItems c).take k,
        i.request ≠ d.request := by
      intro i hi d hd heq
      have hx := hnd2
      rw [← List.take_append_drop k (sortedItems c), List.map_append] at hx
      exact List.disjoint_of_nodup_append hx (List.mem_map_of_mem _ hd)
        (heq ▸ List.mem_map_of_mem _ hi)
    have hsplit : sortedItems c
        = (sortedItems c).take k ++ (sortedItems c).drop k :=
      (List.take_append_drop k (sortedItems c)).symm
    have hkeep : (sortedItems c).filter
        (fun i => !(((sortedItems c).take k).any (fun d => i.request == d.request)))
          = (sortedItems c).drop k :=
      (congrArg (List.filter _) hsplit).trans
        (filter_not_anyKeys ((sortedItems c).take k) ((sortedItems c).drop k) hdisj)
    have hci : cacheItems (c.filter (fun e =>
        !(((sortedItems c).take k).any (fun i => e.1 == i.request))))
          = (cacheItems c).filter (fun i =>
              !(((sortedItems c).take k).any (fun d => i.request == d.request))) :=
      cacheItems_filter
        (fun i => !(((sortedItems c).take k).any (fun d => i.request == d.request))) c
    have hkept_total : totalMeasured (manageCacheSize c)
        = sumSizes ((sortedItems c).drop k) := by
      rw [hman, totalMeasured_eq_sumSizes, hci,
        ← sumSizes_perm (hperm.filter
          (fun i => !(((sortedItems c).take k).any (fun d => i.request == d.request)))),
        hkeep]
    refine ⟨?_, ?_, hperm, k, hk, hman, ?_, ?_⟩
    · rw [hkept_total]
      have hsd := sumSizes_take_drop (sortedItems c) k
      omega
    · exact (List.sorted_mergeSort timeLe_trans timeLe_total (cacheItems c)).imp
        (fun hab => by simpa [timeLe] using hab)
    · rw [hTot]
      exact hfinal
    · intro j hj
      rw [hTot]
      exact he4 j hj

/-- Witness for C2: two 30 MB entries exceed the ceiling, and one pass
brings the measured total to at most the 80% target. -/
theorem manageCacheSize_governs_witness :
    (bigCache.map Prod.fst).Nodup ∧
    MAX_CACHE_SIZE < totalMeasured bigCache ∧
    totalMeasured (manageCacheSize bigCache) ≤ EVICTION_TARGET :=
  ⟨by decide, by decide,
    ((manageCacheSize_governs bigCache (by decide)).2 (by decide)).1⟩

end SwCache
